import Mathlib

/-!
Verification of the whisperx-audio-transcriber repository.

This file gives a shallow embedding, in Lean 4, of the parts of the
repository that the specification's claims are about:

* `src/transcriber.py` — the `WhisperXTranscriber` class: the speaker
  assignment resolver (`_assign_speaker_to_segment`), the transcription
  pipeline (`transcribe_audio`), the timestamp formatter
  (`format_timestamp`), and the output formatters (`format_output`,
  `_format_json`, `_format_txt`, `_format_srt`, `_format_vtt`);
* `src/main.py` — the batch driver (`process_single_file`, `process_batch`).

Modelling conventions:

* Python floats are modelled as rationals (`ℚ`); the arithmetic the code
  performs on them (comparison, `max`/`min`, subtraction, `divmod`,
  truncation) is embedded exactly over `ℚ`.
* Python strings are modelled as Lean `String` (a list of unicode code
  points, which is what a Python `str` is); where character-level parsing
  is proved, `List Char` is used directly.
* Exceptions are modelled with `Except`/`Option`; a stage of the pipeline
  that the code wraps in `try/except` is modelled by an outcome parameter
  (`Option` of the stage's product, `none` meaning the stage raised, for
  any reason).
* The external ML capabilities (ASR, alignment, diarization models) are
  out of scope per the spec; the pipeline embedding is parameterised by
  their outputs.
-/

namespace WhisperXSpec

/-! ## Decimal digit and string utilities

These model Python's rendering of non-negative integers (`str(n)`,
`f"{n:02d}"`) at the character level. -/

/-- Character for a single decimal digit `d < 10` (so `digitChar 7 = '7'`). -/
def digitChar (d : Nat) : Char := Char.ofNat (48 + d)

/-- Whether `c` is an ASCII decimal digit. -/
def isDigitChar (c : Char) : Bool := decide (48 ≤ c.toNat) && decide (c.toNat ≤ 57)

/-- Numeric value of an ASCII digit character. -/
def charDigit (c : Char) : Nat := c.toNat - 48

/-- Fuelled digit extraction (fuel bounds the digit count; the wrapper
always passes enough): accumulates the decimal digits of `n`, most
significant first, in front of `acc`. -/
def natCharsCore : Nat → Nat → List Char → List Char
  | 0, _, acc => acc
  | fuel + 1, n, acc =>
      if n < 10 then digitChar n :: acc
      else natCharsCore fuel (n / 10) (digitChar (n % 10) :: acc)

/-- Decimal representation of a natural number, most significant digit
first: the character sequence Python's `str(n)` produces for `n ≥ 0`. -/
def natChars (n : Nat) : List Char := natCharsCore (n + 1) n []

/-- Zero-padding to minimum width `w`: the character sequence Python's
`f"{n:0wd}"` produces (pads with `'0'` on the left, never truncates). -/
def padLeft (w n : Nat) : List Char :=
  List.replicate (w - (natChars n).length) '0' ++ natChars n

/-! ## Timestamp formatter

Embeds `WhisperXTranscriber.format_timestamp` (src/transcriber.py:242-248):

```python
td = timedelta(seconds=seconds)
total_seconds = int(td.total_seconds())
hours, remainder = divmod(total_seconds, 3600)
minutes, seconds = divmod(remainder, 60)
milliseconds = int((td.total_seconds() % 1) * 1000)
return f"{hours:02d}:{minutes:02d}:{seconds:02d}.{milliseconds:03d}"
```

For `seconds ≥ 0` (the only supported domain — the spec declares negative
input a precondition violation), `int(x)` is `⌊x⌋` and `x % 1` is
`x - ⌊x⌋`, which is what is written below over `ℚ`. -/

/-- Timestamp formatter of the transcriber, over exact rationals. -/
def format_timestamp (t : ℚ) : String :=
  let total : Nat := (⌊t⌋).toNat
  let hours := total / 3600
  let remainder := total % 3600
  let minutes := remainder / 60
  let secs := remainder % 60
  let milliseconds : Nat := (⌊(t - (⌊t⌋ : ℤ)) * 1000⌋).toNat
  String.mk (padLeft 2 hours ++ ':' :: (padLeft 2 minutes ++ ':' :: (padLeft 2 secs ++ '.' :: padLeft 3 milliseconds)))

/-! ## Speaker assignment resolver -/

/-- One diarization turn, as collected by `transcribe_audio`
(src/transcriber.py:180-184): a speaker-attributed time interval.
The Python dict key `end` is spelled `stop` here (`end` is a Lean
keyword). -/
structure DiarizationTurn where
  start : ℚ
  stop : ℚ
  speaker : String
deriving DecidableEq

/-- One iteration of the `_assign_speaker_to_segment` loop body
(src/transcriber.py:231-238): the state is `(best_speaker, max_overlap)`
and is updated only on strict improvement
(`if overlap_duration > max_overlap`). -/
def assignStep (segment_start segment_end : ℚ) (best : String × ℚ)
    (spk_seg : DiarizationTurn) : String × ℚ :=
  let overlap_start := max segment_start spk_seg.start
  let overlap_end := min segment_end spk_seg.stop
  let overlap_duration := max 0 (overlap_end - overlap_start)
  if best.2 < overlap_duration then (spk_seg.speaker, overlap_duration) else best

/-- Embeds `WhisperXTranscriber._assign_speaker_to_segment`
(src/transcriber.py:222-240): fold of the loop body over the turns,
starting from `("SPEAKER_00", 0)`, returning the final `best_speaker`. -/
def assign_speaker_to_segment (segment_start segment_end : ℚ)
    (speaker_segments : List DiarizationTurn) : String :=
  (speaker_segments.foldl (assignStep segment_start segment_end)
    ("SPEAKER_00", (0 : ℚ))).1

/-! Specification-side restatement of the resolver, written from the
claim's words ("the speaker label of the first turn in input order that
attains the maximum overlap; `SPEAKER_00` when no turn has positive
overlap") — to be compared with the source-side fold above. -/

/-- Temporal overlap of the claim:
`max(0, min(segment_end, turn.end) - max(segment_start, turn.start))`. -/
def overlapOf (segment_start segment_end : ℚ) (t : DiarizationTurn) : ℚ :=
  max 0 (min segment_end t.stop - max segment_start t.start)

/-- Greatest overlap any turn attains (0 for the empty list; overlaps are
never negative). -/
def maxOverlap (segment_start segment_end : ℚ) (turns : List DiarizationTurn) : ℚ :=
  turns.foldl (fun m t => max m (overlapOf segment_start segment_end t)) 0

/-- Claim-side resolver: default label when no turn has positive overlap,
otherwise the speaker of the first turn (in input order) attaining the
maximum overlap. -/
def firstBestSpeaker (segment_start segment_end : ℚ)
    (turns : List DiarizationTurn) : String :=
  if maxOverlap segment_start segment_end turns ≤ 0 then "SPEAKER_00"
  else
    match turns.find?
      (fun t => decide (overlapOf segment_start segment_end t = maxOverlap segment_start segment_end turns)) with
    | some t => t.speaker
    | none => "SPEAKER_00"

/-! ## Transcript segments and pipeline result -/

/-- One transcript segment. Models the segment dicts flowing through
`transcribe_audio`: `start`/`end` times (the key `end` is spelled `stop`,
`end` being a Lean keyword), raw text, and a speaker label that is absent
(`none`) until the diarization stage assigns one. -/
structure Segment where
  start : ℚ
  stop : ℚ
  text : String
  speaker : Option String
deriving DecidableEq

/-- Models `segment["speaker"] = sp` (in-place assignment of the key). -/
def setSpeaker (seg : Segment) (sp : String) : Segment :=
  ⟨seg.start, seg.stop, seg.text, some sp⟩

/-- Models `segment.get("speaker", "SPEAKER_00")`. -/
def speakerLabel (seg : Segment) : String := seg.speaker.getD "SPEAKER_00"

/-- Result metadata, as assembled at src/transcriber.py:205-214. -/
structure Metadata where
  audio_file : String
  duration : ℚ
  model : String
  language : String
  speakers_detected : Nat
deriving DecidableEq

/-- The pipeline's output object (`formatted_result`). -/
structure TranscriptionResult where
  metadata : Metadata
  segments : List Segment
deriving DecidableEq

/-- Python's `round` ties-to-even on an exact rational, to the nearest
integer. -/
def roundHalfToEven (q : ℚ) : ℤ :=
  if q - ⌊q⌋ < 1/2 then ⌊q⌋
  else if 1/2 < q - ⌊q⌋ then ⌊q⌋ + 1
  else if 2 ∣ ⌊q⌋ then ⌊q⌋ else ⌊q⌋ + 1

/-- Models `round(x, 2)` (Python banker's rounding, over exact rationals). -/
def pyRound2 (q : ℚ) : ℚ := (roundHalfToEven (q * 100) : ℚ) / 100

/-! ## Transcription pipeline

Embeds `WhisperXTranscriber.transcribe_audio` (src/transcriber.py:126-220)
from the end of the mandatory transcription stage onwards.  The external
capabilities are out of scope (per spec §1/§6); the run record carries
their outputs:

* `align_outcome`: `some aligned` when `whisperx.align` succeeded and
  produced `aligned`; `none` for **any** alignment failure — the alignment
  model failed to load (`_load_alignment_model` catches the exception and
  leaves `self.model_a = None`, so the `if self.model_a is not None` guard
  skips alignment), or `whisperx.align` itself raised (caught by the
  `except` at line 164).  In every such case the code proceeds with
  `result` untouched.
* `diarization_outcome`: `some turns` when diarization produced the turn
  list; `none` for **any** failure — missing `HF_TOKEN`/`TOKEN` credential
  (`_load_diarization_model` raises `ValueError`), model-load failure
  (`RuntimeError`), or inference failure.  All are caught by the single
  `except` at line 194, whose handler assigns `"SPEAKER_00"` to every
  segment (overwriting any partial assignment, so partial failure is
  equivalent to total failure). -/

/-- Inputs of one `transcribe_audio` run: pipeline configuration, the
transcription stage's products, and the outcomes of the two optional
stages. -/
structure PipelineRun where
  audio_file : String
  model_size : String
  language : Option String
  detected_language : String
  audio_len : Nat
  segments : List Segment
  align_outcome : Option (List Segment)
  diarization_outcome : Option (List DiarizationTurn)
deriving DecidableEq

/-- The pipeline from transcription output to `TranscriptionResult`
(src/transcriber.py:143-220). -/
def transcribe_audio (run : PipelineRun) : TranscriptionResult :=
  let language_code := run.language.getD run.detected_language
  let aligned :=
    match run.align_outcome with
    | some segs => segs
    | none => run.segments
  let labeled :=
    match run.diarization_outcome with
    | some turns =>
        aligned.map (fun seg => setSpeaker seg (assign_speaker_to_segment seg.start seg.stop turns))
    | none => aligned.map (fun seg => setSpeaker seg "SPEAKER_00")
  let speakers_detected := (labeled.map speakerLabel).dedup.length
  ⟨⟨run.audio_file, pyRound2 ((run.audio_len : ℚ) / 16000), run.model_size,
    language_code, speakers_detected⟩, labeled⟩

/-! ## Output formatters (src/transcriber.py:250-315) -/

/-- ASCII-range model of `str.lower` on one character (the format names
dispatched on are ASCII). -/
def pyLowerChar (c : Char) : Char :=
  if 65 ≤ c.toNat ∧ c.toNat ≤ 90 then Char.ofNat (c.toNat + 32) else c

/-- Models `format_type.lower()`. -/
def pyLower (s : String) : String := String.mk (s.data.map pyLowerChar)

/-- Whether `c` is stripped by Python's `str.strip()` (ASCII whitespace). -/
def isPySpace (c : Char) : Bool :=
  decide (c = ' ') || decide (c = '\t') || decide (c = '\n') || decide (c = '\r')
    || decide (c = '\x0b') || decide (c = '\x0c')

/-- Models `text.strip()`. -/
def pyStrip (s : String) : String :=
  String.mk (((s.data.dropWhile isPySpace).reverse.dropWhile isPySpace).reverse)

/-- One line of `_format_txt` (src/transcriber.py:277-287). -/
def txtLine (seg : Segment) : String :=
  "[" ++ format_timestamp seg.start ++ " --> " ++ format_timestamp seg.stop ++ "] "
    ++ speakerLabel seg ++ ": " ++ pyStrip seg.text

/-- Embeds `_format_txt`: one line per segment, joined by newlines.  (The
Python formatter also receives the full result dict but reads only the
segment list; the embedding takes the segment list.) -/
def format_txt (segments : List Segment) : String :=
  String.intercalate "\n" (segments.map txtLine)

/-- Timestamp with `"."` replaced by `","` — models
`format_timestamp(...).replace(".", ",")` in `_format_srt` (replacing a
one-character pattern is a per-character map). -/
def srtTimestamp (t : ℚ) : String :=
  String.mk ((format_timestamp t).data.map (fun c => if c = '.' then ',' else c))

/-- The line list built by `_format_srt`'s loop
(src/transcriber.py:289-303), with `i` the running 1-based counter of
`enumerate(segments, 1)`: each segment contributes its sequence number, a
comma-millisecond timestamp line, a `speaker: text` line, and a blank
line. -/
def srtLinesFrom : Nat → List Segment → List String
  | _, [] => []
  | i, seg :: rest =>
      String.mk (natChars i)
        :: (srtTimestamp seg.start ++ " --> " ++ srtTimestamp seg.stop)
        :: (speakerLabel seg ++ ": " ++ pyStrip seg.text)
        :: ""
        :: srtLinesFrom (i + 1) rest

/-- Embeds `_format_srt`. -/
def format_srt (segments : List Segment) : String :=
  String.intercalate "\n" (srtLinesFrom 1 segments)

/-- Claim-side description of one SRT block for the numbered segment
`(n, seg)`: four lines, the first being the sequence number `n`. -/
def srtBlock (numbered : Nat × Segment) : List String :=
  [String.mk (natChars numbered.1),
   srtTimestamp numbered.2.start ++ " --> " ++ srtTimestamp numbered.2.stop,
   speakerLabel numbered.2 ++ ": " ++ pyStrip numbered.2.text,
   ""]

/-- The three lines one segment contributes in `_format_vtt`
(src/transcriber.py:305-315). -/
def vttBlock (seg : Segment) : List String :=
  [format_timestamp seg.start ++ " --> " ++ format_timestamp seg.stop,
   speakerLabel seg ++ ": " ++ pyStrip seg.text,
   ""]

/-- Embeds `_format_vtt`: starts from `lines = ["WEBVTT", ""]`. -/
def format_vtt (segments : List Segment) : String :=
  String.intercalate "\n" ("WEBVTT" :: "" :: segments.flatMap vttBlock)

/-! ## JSON serialization (src/transcriber.py:272-275)

`_format_json` is `json.dumps(transcription_result, indent=2,
ensure_ascii=False)`.  The embedding works at the character level:

* a Python float appears in the output as its `repr`, a finite decimal
  `⟨integer part⟩.⟨fraction digits⟩` (shortest round-tripping form); the
  type `Dec` holds exactly that text, digit by digit;
* `json.dumps` with `indent=2` and default separators produces, for the
  fixed key structure of `formatted_result` (metadata keys in insertion
  order `audio_file, duration, model, language, speakers_detected`;
  segment keys `start, end, text, speaker`), the precise line/indentation
  skeleton written out in `dumpsChars` below;
* with `ensure_ascii=False` only `\`, `"` and control characters are
  escaped; everything else, including non-ASCII, is emitted literally
  (`pyJsonEscapeChar`).

`parseTranscription` is the reader for this document shape (what
`json.loads` reconstructs from such a document). -/

/-- Text of one JSON number as Python renders a non-negative float:
integer part and fraction digits (most significant first). -/
structure Dec where
  ip : Nat
  fr : List Nat
deriving DecidableEq

/-- Characters of a `Dec` number: `ip` digits, `'.'`, fraction digits. -/
def decChars (d : Dec) : List Char := natChars d.ip ++ '.' :: d.fr.map digitChar

/-- Hexadecimal digit character (lowercase), for `\u00XX` escapes. -/
def hexChar (n : Nat) : Char :=
  if n < 10 then digitChar n else Char.ofNat (87 + n)

/-- Python json string escaping with `ensure_ascii=False`: escapes only
backslash, double quote and control characters (< 0x20); all other
characters — non-ASCII included — pass through literally. -/
def pyJsonEscapeChar (c : Char) : List Char :=
  if c = '\\' then ['\\', '\\']
  else if c = '"' then ['\\', '"']
  else if c.toNat < 32 then
    if c = '\n' then ['\\', 'n']
    else if c = '\t' then ['\\', 't']
    else if c = '\r' then ['\\', 'r']
    else if c = '\x08' then ['\\', 'b']
    else if c = '\x0c' then ['\\', 'f']
    else ['\\', 'u', '0', '0', hexChar (c.toNat / 16), hexChar (c.toNat % 16)]
  else [c]

/-- Characters of a JSON string literal: quote, escaped body, quote. -/
def strChars (s : String) : List Char :=
  '"' :: (s.data.map pyJsonEscapeChar).flatten ++ ['"']

/-- One segment as it enters `json.dumps`: times as the decimals their
float `repr`s render to, text and speaker as strings. -/
structure JSegment where
  start : Dec
  stop : Dec
  text : String
  speaker : String
deriving DecidableEq

/-- Result metadata at the serialization boundary. -/
structure JMetadata where
  audio_file : String
  duration : Dec
  model : String
  language : String
  speakers_detected : Nat
deriving DecidableEq

/-- The full result object as it enters `json.dumps`. -/
structure JResult where
  metadata : JMetadata
  segments : List JSegment
deriving DecidableEq

/-- Shorthand: the characters of a Lean string literal. -/
def lit (s : String) : List Char := s.data

/-- Characters of one segment object in the `indent=2` layout (element at
indent 4, keys at indent 6). -/
def segChars (s : JSegment) : List Char :=
  lit "    \x7b\n      \"start\": " ++ decChars s.start ++
  lit ",\n      \"end\": " ++ decChars s.stop ++
  lit ",\n      \"text\": " ++ strChars s.text ++
  lit ",\n      \"speaker\": " ++ strChars s.speaker ++
  lit "\n    \x7d"

/-- Segment objects joined by `",\n"` (the `indent` item separator). -/
def segsChars : List JSegment → List Char
  | [] => []
  | [s] => segChars s
  | s :: rest => segChars s ++ lit ",\n" ++ segsChars rest

/-- The `"segments"` array: `[]` when empty, otherwise the elements
between `[\n` and `\n  ]`. -/
def segListChars (l : List JSegment) : List Char :=
  if l.isEmpty then lit "[]" else lit "[\n" ++ (segsChars l ++ lit "\n  ]")

/-- Embeds `json.dumps(formatted_result, indent=2, ensure_ascii=False)`:
the exact character sequence, keys in insertion order, 2-space
indentation. -/
def dumpsChars (r : JResult) : List Char :=
  lit "\x7b\n  \"metadata\": \x7b\n    \"audio_file\": " ++ (strChars r.metadata.audio_file ++
  (lit ",\n    \"duration\": " ++ (decChars r.metadata.duration ++
  (lit ",\n    \"model\": " ++ (strChars r.metadata.model ++
  (lit ",\n    \"language\": " ++ (strChars r.metadata.language ++
  (lit ",\n    \"speakers_detected\": " ++ (natChars r.metadata.speakers_detected ++
  (lit "\n  \x7d,\n  \"segments\": " ++ (segListChars r.segments ++
  lit "\n\x7d")))))))))))

/-! Reader for the document shape produced above (the relevant behaviour
of `json.loads` on `_format_json` output). -/

/-- Consume the literal prefix `pat`, returning the rest; `none` when the
input does not start with `pat`. -/
def expectChars : List Char → List Char → Option (List Char)
  | [], s => some s
  | _ :: _, [] => none
  | p :: ps, c :: cs => if c = p then expectChars ps cs else none

/-- Read string-body characters up to (and consuming) the closing
quote. -/
def readStringChars : List Char → Option (List Char × List Char)
  | [] => none
  | c :: cs =>
      if c = '"' then some ([], cs)
      else
        match readStringChars cs with
        | some (a, r) => some (c :: a, r)
        | none => none

/-- Read a JSON string literal (opening quote, body, closing quote). -/
def readJString (s : List Char) : Option (String × List Char) := do
  let s ← expectChars ['"'] s
  let p ← readStringChars s
  some (String.mk p.1, p.2)

/-- Take the leading run of digit characters, as digit values. -/
def takeDigitChars : List Char → List Nat × List Char
  | [] => ([], [])
  | c :: cs =>
      if isDigitChar c then
        let p := takeDigitChars cs
        (charDigit c :: p.1, p.2)
      else ([], c :: cs)

/-- Value of a most-significant-first digit list. -/
def natFromDigits (ds : List Nat) : Nat := ds.foldl (fun a d => a * 10 + d) 0

/-- Read a natural number (at least one digit). -/
def readNatChars (s : List Char) : Option (Nat × List Char) :=
  let p := takeDigitChars s
  if p.1.isEmpty then none else some (natFromDigits p.1, p.2)

/-- Read a decimal number `⟨digits⟩.⟨digits⟩`. -/
def readDecChars (s : List Char) : Option (Dec × List Char) := do
  let (ip, s) ← readNatChars s
  let s ← expectChars ['.'] s
  let p := takeDigitChars s
  if p.1.isEmpty then none else some (⟨ip, p.1⟩, p.2)

/-- Read one segment object of the layout `segChars` emits. -/
def parseSeg (s : List Char) : Option (JSegment × List Char) := do
  let s ← expectChars (lit "    \x7b\n      \"start\": ") s
  let (st, s) ← readDecChars s
  let s ← expectChars (lit ",\n      \"end\": ") s
  let (en, s) ← readDecChars s
  let s ← expectChars (lit ",\n      \"text\": ") s
  let (tx, s) ← readJString s
  let s ← expectChars (lit ",\n      \"speaker\": ") s
  let (sp, s) ← readJString s
  let s ← expectChars (lit "\n    \x7d") s
  some (⟨st, en, tx, sp⟩, s)

/-- Read the segment objects of a non-empty array (after `[\n`), up to and
consuming the closing `\n  ]`.  `fuel` bounds the number of elements; the
top-level reader passes the input length, which always suffices. -/
def parseSegList : Nat → List Char → Option (List JSegment × List Char)
  | 0, _ => none
  | fuel + 1, s => do
    let (seg, s) ← parseSeg s
    match expectChars (lit ",\n") s with
    | some s2 => do
        let (rest, s3) ← parseSegList fuel s2
        some (seg :: rest, s3)
    | none => do
        let s2 ← expectChars (lit "\n  ]") s
        some ([seg], s2)

/-- Read a whole serialized result document (and require that nothing
follows it): the reconstruction `json.loads` performs on `_format_json`
output. -/
def parseTranscription (s : List Char) : Option JResult := do
  let s ← expectChars (lit "\x7b\n  \"metadata\": \x7b\n    \"audio_file\": ") s
  let (af, s) ← readJString s
  let s ← expectChars (lit ",\n    \"duration\": ") s
  let (dur, s) ← readDecChars s
  let s ← expectChars (lit ",\n    \"model\": ") s
  let (mdl, s) ← readJString s
  let s ← expectChars (lit ",\n    \"language\": ") s
  let (lang, s) ← readJString s
  let s ← expectChars (lit ",\n    \"speakers_detected\": ") s
  let (spk, s) ← readNatChars s
  let s ← expectChars (lit "\n  \x7d,\n  \"segments\": ") s
  match expectChars (lit "[]") s with
  | some s2 => do
      let s3 ← expectChars (lit "\n\x7d") s2
      if s3.isEmpty then some ⟨⟨af, dur, mdl, lang, spk⟩, []⟩ else none
  | none => do
      let s2 ← expectChars (lit "[\n") s
      let (segs, s3) ← parseSegList s2.length s2
      let s4 ← expectChars (lit "\n\x7d") s3
      if s4.isEmpty then some ⟨⟨af, dur, mdl, lang, spk⟩, segs⟩ else none

/-- The input does not begin with a digit character (used to delimit
number reads; in the document layout a number is always followed by `','`
or a newline). -/
def headNotDigit : List Char → Prop
  | [] => True
  | c :: _ => isDigitChar c = false

/-- Well-formed string for the exact round trip: none of its characters
is escaped by the encoder (no quote, no backslash, no control character).
Non-ASCII characters are allowed — `ensure_ascii=False` passes them
through. -/
def WFStr (s : String) : Prop := ∀ c ∈ s.data, c ≠ '"' ∧ c ≠ '\\' ∧ 32 ≤ c.toNat

/-- Well-formed decimal: at least one fraction digit (float `repr` always
prints one) and every entry an actual digit. -/
def WFDec (d : Dec) : Prop := d.fr ≠ [] ∧ ∀ k ∈ d.fr, k < 10

/-- Well-formed serialization-level segment. -/
def WFSeg (s : JSegment) : Prop :=
  WFDec s.start ∧ WFDec s.stop ∧ WFStr s.text ∧ WFStr s.speaker

/-- Well-formed serialization-level result. -/
def WFResult (r : JResult) : Prop :=
  WFStr r.metadata.audio_file ∧ WFDec r.metadata.duration ∧
  WFStr r.metadata.model ∧ WFStr r.metadata.language ∧
  ∀ s ∈ r.segments, WFSeg s

/-! Bridge from the pipeline-level result (times as `ℚ`) to the
serialization-level object (times as the decimals their `repr`s print):
used to give `format_output`'s `"json"` branch a total definition.  The
digit expansion is exact whenever the rational has a finite decimal
expansion of at most 60 digits, which covers every value `repr` of a
float can print. -/

/-- Fraction digits of `q ∈ [0,1)`, most significant first, up to
`fuel` digits. -/
def fracDigits : Nat → ℚ → List Nat
  | 0, _ => []
  | fuel + 1, q =>
      if q = 0 then []
      else (⌊q * 10⌋).toNat :: fracDigits fuel (q * 10 - ⌊q * 10⌋)

/-- Decimal text of a non-negative rational (fraction part `".0"` when
empty, as float `repr` prints whole numbers). -/
def decOfRat (q : ℚ) : Dec :=
  let fr := fracDigits 60 (q - ⌊q⌋)
  ⟨(⌊q⌋).toNat, if fr.isEmpty then [0] else fr⟩

/-- A pipeline segment as `json.dumps` sees it. -/
def jsegOfSegment (seg : Segment) : JSegment :=
  ⟨decOfRat seg.start, decOfRat seg.stop, seg.text, speakerLabel seg⟩

/-- A pipeline result as `json.dumps` sees it. -/
def jresultOf (r : TranscriptionResult) : JResult :=
  ⟨⟨r.metadata.audio_file, decOfRat r.metadata.duration, r.metadata.model,
    r.metadata.language, r.metadata.speakers_detected⟩,
   r.segments.map jsegOfSegment⟩

/-- Embeds `_format_json` (src/transcriber.py:272-275). -/
def format_json (r : TranscriptionResult) : String :=
  String.mk (dumpsChars (jresultOf r))

/-! ## Format dispatch (src/transcriber.py:250-270) -/

/-- Embeds `format_output`: lower-cases the requested name, looks it up in
the formatter table (insertion order `json, txt, srt, vtt`), raises
`ValueError` naming the requested value and the supported set when absent.
The Python formatters receive `(transcription_result, segments)`; the
dispatch passes both, as the source does. -/
def format_output (transcription_result : TranscriptionResult)
    (format_type : String) : Except String String :=
  let segments := transcription_result.segments
  let format_lower := pyLower format_type
  let formatter : Option (TranscriptionResult → List Segment → String) :=
    if format_lower = "json" then some (fun r _ => format_json r)
    else if format_lower = "txt" then some (fun _ segs => format_txt segs)
    else if format_lower = "srt" then some (fun _ segs => format_srt segs)
    else if format_lower = "vtt" then some (fun _ segs => format_vtt segs)
    else none
  match formatter with
  | some f => Except.ok (f transcription_result segments)
  | none =>
      Except.error ("Unsupported format: " ++ format_type ++ ". Supported: json, txt, srt, vtt")

/-! ## Batch driver (src/main.py)

`process_single_file` (src/main.py:51-84) wraps its **entire** body —
transcription, formatting, saving, summary printing — in
`try: ... except Exception as e:` whose handler prints
`"❌ Error processing {audio_path}: {e}"` and falls through; the function
always returns `None` normally.  The embedding abstracts the body as an
outcome function and returns whether the handler ran (an error was
caught and printed).

`process_batch` (src/main.py:99-131) loops over the files with its own
`try: process_single_file(...); successful += 1 / except Exception:
failed += 1`.  Because `process_single_file` catches every `Exception`
itself, its call never raises, so the batch-level `except` is dead code:
the fold below increments `successful` for every file unconditionally,
exactly as the Python executes. -/

/-- Embeds `process_single_file`: `transcribe` abstracts the body of its
`try` block (transcribe + format + save); the result records whether the
`except` handler ran. `true` means the file's processing failed and the
error was caught and printed. -/
def process_single_file (transcribe : String → Except String Unit)
    (audio_path : String) : Bool :=
  match transcribe audio_path with
  | Except.ok _ => false
  | Except.error _ => true

/-- Embeds `process_batch`'s loop and tally: returns
`(successful, failed)` as printed in the final report. -/
def process_batch (transcribe : String → Except String Unit)
    (audio_files : List String) : Nat × Nat :=
  audio_files.foldl
    (fun counts audio_file =>
      let _ := process_single_file transcribe audio_file
      (counts.1 + 1, counts.2))
    (0, 0)

/-! ## Concrete fixtures (used by witness theorems) -/

/-- A pipeline run with two transcription segments, alignment failed and
diarization failed/skipped (both outcome parameters `none`). -/
def sampleRun : PipelineRun :=
  ⟨"meeting.mp3", "base", none, "en", 160000,
   [⟨0, 5, " Hello world ", none⟩, ⟨11/2, 10, "How are you?", none⟩],
   none, none⟩

/-- A concrete pipeline result with two labeled segments. -/
def sampleResult : TranscriptionResult :=
  ⟨⟨"meeting.mp3", 10, "base", "en", 2⟩,
   [⟨0, 5, " Hello world ", some "SPEAKER_00"⟩,
    ⟨11/2, 10, "How are you?", some "SPEAKER_01"⟩]⟩

/-- A concrete serialization-level result containing a non-ASCII
character. -/
def sampleJResult : JResult :=
  ⟨⟨"café.mp3", ⟨10, [0]⟩, "base", "fr", 2⟩,
   [⟨⟨0, [0]⟩, ⟨5, [5]⟩, "héllo wörld", "SPEAKER_00"⟩,
    ⟨⟨5, [5]⟩, ⟨10, [0]⟩, "ça va?", "SPEAKER_01"⟩]⟩

/-! # Theorems -/

/-! ## C1 — the speaker assignment resolver -/

theorem assignStep_eq (s e : ℚ) (b : String) (m : ℚ) (t : DiarizationTurn) :
    assignStep s e (b, m) t =
      if m < overlapOf s e t then (t.speaker, overlapOf s e t) else (b, m) := rfl

theorem overlapOf_nonneg (s e : ℚ) (t : DiarizationTurn) : 0 ≤ overlapOf s e t :=
  le_max_left 0 _

/-- The `max_overlap` component of the fold is the running maximum of the
overlaps. -/
theorem foldl_assignStep_snd (s e : ℚ) :
    ∀ (l : List DiarizationTurn) (b : String) (m : ℚ),
      (l.foldl (assignStep s e) (b, m)).2 =
        l.foldl (fun acc t => max acc (overlapOf s e t)) m := by
  intro l
  induction l with
  | nil => intro b m; rfl
  | cons t ts ih =>
      intro b m
      simp only [List.foldl_cons, assignStep_eq]
      by_cases h : m < overlapOf s e t
      · rw [if_pos h, ih, max_eq_right (le_of_lt h)]
      · rw [if_neg h, ih, max_eq_left (le_of_not_lt h)]

theorem le_foldl_max (s e : ℚ) :
    ∀ (l : List DiarizationTurn) (m : ℚ),
      m ≤ l.foldl (fun acc t => max acc (overlapOf s e t)) m := by
  intro l
  induction l with
  | nil => intro m; exact le_refl m
  | cons t ts ih =>
      intro m
      simp only [List.foldl_cons]
      exact le_trans (le_max_left m _) (ih _)

/-- The running maximum is either the seed or attained by some element. -/
theorem foldl_max_attained (s e : ℚ) :
    ∀ (l : List DiarizationTurn) (m : ℚ),
      l.foldl (fun acc t => max acc (overlapOf s e t)) m = m ∨
        ∃ t ∈ l, overlapOf s e t = l.foldl (fun acc t => max acc (overlapOf s e t)) m := by
  intro l
  induction l with
  | nil => intro m; exact Or.inl rfl
  | cons t ts ih =>
      intro m
      simp only [List.foldl_cons]
      rcases ih (max m (overlapOf s e t)) with h | ⟨u, hu, hv⟩
      · rw [h]
        rcases max_cases m (overlapOf s e t) with ⟨h1, _⟩ | ⟨h1, _⟩
        · exact Or.inl h1
        · exact Or.inr ⟨t, List.mem_cons_self t ts, h1.symm⟩
      · exact Or.inr ⟨u, List.mem_cons_of_mem t hu, hv⟩

/-- The `best_speaker` component of the fold: the seed label when no
element improves on the seed overlap, otherwise the speaker of the first
element attaining the running maximum. -/
theorem foldl_assignStep_fst (s e : ℚ) :
    ∀ (l : List DiarizationTurn) (b : String) (m : ℚ),
      (l.foldl (assignStep s e) (b, m)).1 =
        if l.foldl (fun acc t => max acc (overlapOf s e t)) m ≤ m then b
        else
          match l.find?
            (fun t => decide (overlapOf s e t = l.foldl (fun acc t => max acc (overlapOf s e t)) m)) with
          | some t => t.speaker
          | none => b := by
  intro l
  induction l with
  | nil => intro b m; simp
  | cons t ts ih =>
      intro b m
      have hM : ∀ m', m' ≤ ts.foldl (fun acc t => max acc (overlapOf s e t)) m' :=
        fun m' => le_foldl_max s e ts m'
      simp only [List.foldl_cons, assignStep_eq]
      by_cases h : m < overlapOf s e t
      · rw [if_pos h]
        rw [ih t.speaker (overlapOf s e t)]
        have hmax : max m (overlapOf s e t) = overlapOf s e t := max_eq_right (le_of_lt h)
        simp only [hmax]
        set M := ts.foldl (fun acc t => max acc (overlapOf s e t)) (overlapOf s e t) with hMdef
        have hMge : overlapOf s e t ≤ M := hM _
        have hMgtm : ¬ (M ≤ m) := fun hc => absurd (le_trans hMge hc) (not_le_of_lt h)
        rw [if_neg hMgtm]
        by_cases hEq : overlapOf s e t = M
        · have h1 : M ≤ overlapOf s e t := le_of_eq hEq.symm
          rw [if_pos h1]
          simp [List.find?_cons, hEq]
        · have h1 : ¬ (M ≤ overlapOf s e t) := fun hc => hEq (le_antisymm hMge hc)
          rw [if_neg h1]
          have hfind : (t :: ts).find?
              (fun u => decide (overlapOf s e u = M)) =
              ts.find? (fun u => decide (overlapOf s e u = M)) := by
            simp [List.find?_cons, hEq]
          rw [hfind]
          rcases foldl_max_attained s e ts (overlapOf s e t) with hc | ⟨u, hu, hv⟩
          · exact absurd hc.symm hEq
          · have hsome : ∃ v, ts.find? (fun u => decide (overlapOf s e u = M)) = some v := by
              rcases Option.eq_none_or_eq_some
                  (ts.find? (fun u => decide (overlapOf s e u = M))) with hn | hs
              · rw [List.find?_eq_none] at hn
                exact absurd (by simpa using hv) (by simpa using hn u hu)
              · exact hs
            rcases hsome with ⟨v, hvv⟩
            rw [hvv]
      · rw [if_neg h]
        rw [ih b m]
        have hmax : max m (overlapOf s e t) = m := max_eq_left (le_of_not_lt h)
        simp only [hmax]
        set M := ts.foldl (fun acc t => max acc (overlapOf s e t)) m with hMdef
        by_cases hle : M ≤ m
        · rw [if_pos hle, if_pos hle]
        · rw [if_neg hle, if_neg hle]
          have hEq : ¬ (overlapOf s e t = M) := by
            intro hc
            exact hle (hc ▸ le_of_not_lt h)
          simp [List.find?_cons, hEq]

/-- C1.  `_assign_speaker_to_segment` computes, for each turn, the overlap
`max(0, min(segment_end, turn.end) - max(segment_start, turn.start))` and
returns the speaker of the **first** turn (in input order) attaining the
maximum overlap — strict `>` comparison, so a later equal-overlap turn
never displaces an earlier one; when no turn has positive overlap
(including the empty list) it returns `"SPEAKER_00"`.  Stated as: the
source fold equals the claim-side resolver `firstBestSpeaker`, the empty
list yields the default, and the spec's tie example
(turns `[(0,5,A), (5,10,B)]` against segment `[2.5, 7.5]`, both overlaps
`2.5`) yields `"A"`. -/
theorem assign_speaker_first_max_overlap :
    (∀ (segment_start segment_end : ℚ) (turns : List DiarizationTurn),
        assign_speaker_to_segment segment_start segment_end turns =
          firstBestSpeaker segment_start segment_end turns) ∧
    (∀ segment_start segment_end : ℚ,
        assign_speaker_to_segment segment_start segment_end [] = "SPEAKER_00") ∧
    assign_speaker_to_segment (5/2) (15/2)
        [⟨0, 5, "A"⟩, ⟨5, 10, "B"⟩] = "A" := by
  refine ⟨?_, ?_, ?_⟩
  · intro s e turns
    unfold assign_speaker_to_segment firstBestSpeaker maxOverlap
    rw [foldl_assignStep_fst s e turns "SPEAKER_00" 0]
  · intro s e
    rfl
  · have hA : assignStep (5/2) (15/2) ("SPEAKER_00", 0) ⟨0, 5, "A"⟩ = ("A", 5/2) := by
      rw [assignStep_eq]
      have h : overlapOf (5/2) (15/2) (⟨0, 5, "A"⟩ : DiarizationTurn) = 5/2 := by
        unfold overlapOf
        rw [show min ((15:ℚ)/2) 5 = 5 by norm_num [min_def],
          show max ((5:ℚ)/2) 0 = 5/2 by norm_num [max_def]]
        norm_num [max_def]
      rw [h, if_pos (by norm_num : (0:ℚ) < 5/2)]
    have hB : assignStep (5/2) (15/2) ("A", 5/2) ⟨5, 10, "B"⟩ = ("A", 5/2) := by
      rw [assignStep_eq]
      have h : overlapOf (5/2) (15/2) (⟨5, 10, "B"⟩ : DiarizationTurn) = 5/2 := by
        unfold overlapOf
        rw [show min ((15:ℚ)/2) 10 = 15/2 by norm_num [min_def],
          show max ((5:ℚ)/2) 5 = 5 by norm_num [max_def]]
        norm_num [max_def]
      rw [h, if_neg (by norm_num : ¬ ((5:ℚ)/2 < 5/2))]
    show (List.foldl (assignStep (5/2) (15/2)) ("SPEAKER_00", (0:ℚ))
        [⟨0, 5, "A"⟩, ⟨5, 10, "B"⟩]).1 = "A"
    rw [List.foldl_cons, hA, List.foldl_cons, hB]
    rfl

/-! ## C5 — the timestamp formatter -/

theorem natCharsCore_eq (fuel : Nat) :
    ∀ (n : Nat) (acc : List Char), n < 10 ^ fuel → 0 < n →
      natCharsCore fuel n acc = ((Nat.digits 10 n).reverse.map digitChar) ++ acc := by
  induction fuel with
  | zero => intro n acc h hn; simp at h; omega
  | succ fuel ih =>
      intro n acc h hn
      rw [natCharsCore]
      by_cases h10 : n < 10
      · rw [if_pos h10]
        rw [Nat.digits_def' (by norm_num : 1 < 10) hn]
        have hdiv : n / 10 = 0 := Nat.div_eq_of_lt h10
        rw [hdiv]
        have hmod : n % 10 = n := Nat.mod_eq_of_lt h10
        simp [hmod]
      · rw [if_neg h10]
        have hdiv : n / 10 < 10 ^ fuel := by
          rw [Nat.div_lt_iff_lt_mul (by norm_num : 0 < 10)]
          calc n < 10 ^ (fuel + 1) := h
            _ = 10 ^ fuel * 10 := by ring
        have hpos : 0 < n / 10 := Nat.div_pos (le_of_not_lt h10) (by norm_num)
        rw [ih (n / 10) _ hdiv hpos]
        rw [Nat.digits_def' (by norm_num : 1 < 10) hn]
        simp [List.reverse_cons, List.map_append]

theorem natChars_eq_digits (n : Nat) (hn : n ≠ 0) :
    natChars n = (Nat.digits 10 n).reverse.map digitChar := by
  have h : n < 10 ^ (n + 1) :=
    lt_of_lt_of_le (Nat.lt_pow_self (by norm_num) n)
      (Nat.pow_le_pow_right (by norm_num) (Nat.le_succ n))
  rw [natChars, natCharsCore_eq (n + 1) n [] h (Nat.pos_of_ne_zero hn), List.append_nil]

theorem digitChar_is_digit (d : Nat) (hd : d < 10) : isDigitChar (digitChar d) = true := by
  interval_cases d <;> decide

theorem natChars_all_digits (n : Nat) : ∀ c ∈ natChars n, isDigitChar c = true := by
  by_cases hn : n = 0
  · subst hn; intro c hc; simp [natChars, natCharsCore] at hc; subst hc; decide
  · rw [natChars_eq_digits n hn]
    intro c hc
    rcases List.mem_map.mp hc with ⟨d, hd, rfl⟩
    exact digitChar_is_digit d (Nat.digits_lt_base (by norm_num) (List.mem_reverse.mp hd))

theorem natChars_ne_nil (n : Nat) : natChars n ≠ [] := by
  by_cases hn : n = 0
  · subst hn; simp [natChars, natCharsCore]
  · rw [natChars_eq_digits n hn]
    simp [Nat.digits_ne_nil_iff_ne_zero.mpr hn]

theorem natChars_length_le (k n : Nat) (hk : 0 < k) (h : n < 10 ^ k) :
    (natChars n).length ≤ k := by
  by_cases hn : n = 0
  · subst hn; simpa [natChars, natCharsCore] using hk
  · rw [natChars_eq_digits n hn]
    simp only [List.length_map, List.length_reverse]
    by_contra hlen
    push_neg at hlen
    have h1 : 10 ^ (k + 1) ≤ 10 ^ (Nat.digits 10 n).length :=
      Nat.pow_le_pow_right (by norm_num) hlen
    have h2 : 10 ^ (Nat.digits 10 n).length ≤ 10 * n :=
      Nat.base_pow_length_digits_le 10 n (by norm_num) hn
    have h3 : 10 * (10 ^ k) ≤ 10 * n := by
      calc 10 * 10 ^ k = 10 ^ (k + 1) := by ring
        _ ≤ 10 ^ (Nat.digits 10 n).length := h1
        _ ≤ 10 * n := h2
    omega

theorem padLeft_length (w n : Nat) :
    (padLeft w n).length = max w (natChars n).length := by
  simp only [padLeft, List.length_append, List.length_replicate]
  omega

theorem padLeft_all_digits (w n : Nat) : ∀ c ∈ padLeft w n, isDigitChar c = true := by
  intro c hc
  rcases List.mem_append.mp hc with h | h
  · rw [List.eq_of_mem_replicate h]; decide
  · exact natChars_all_digits n c h

theorem ratCast_toNat (z : ℤ) (hz : 0 ≤ z) : ((z.toNat : ℕ) : ℚ) = (z : ℚ) := by
  rw [← Int.cast_natCast, Int.toNat_of_nonneg hz]

theorem padLeft_length_eq (w k n : Nat) (hk : 0 < k) (hkw : k ≤ w) (h : n < 10 ^ k) :
    (padLeft w n).length = w := by
  rw [padLeft_length]
  have := natChars_length_le k n hk h
  omega

/-- C5.  For `t ≥ 0`, `format_timestamp t` is
`⟨hours⟩:⟨minutes⟩:⟨secs⟩.⟨ms⟩` where the H:M:S part is the truncation of
`t` to whole seconds (`h*3600 + m*60 + s ≤ t < h*3600 + m*60 + s + 1`,
`m, s < 60`) and the milliseconds are the fractional remainder times 1000
truncated toward zero (`ms ≤ (t - whole)*1000 < ms + 1`, `ms < 1000`);
each component is all decimal digits, minutes/seconds are exactly two
characters, milliseconds exactly three, hours at least two (exactly two
whenever `t < 360000`, i.e. hours fit in two digits — above that the
hours field widens, as the spec's "unbounded above 99 only if input
demands it" states).  Additionally the three concrete examples of the
spec hold. -/
theorem format_timestamp_spec :
    (∀ t : ℚ, 0 ≤ t →
      ∃ hours minutes secs ms : ℕ,
        format_timestamp t =
          String.mk (padLeft 2 hours ++ ':' :: (padLeft 2 minutes ++ ':' ::
            (padLeft 2 secs ++ '.' :: padLeft 3 ms))) ∧
        minutes < 60 ∧ secs < 60 ∧ ms < 1000 ∧
        ((hours * 3600 + minutes * 60 + secs : ℕ) : ℚ) ≤ t ∧
        t < ((hours * 3600 + minutes * 60 + secs : ℕ) : ℚ) + 1 ∧
        (ms : ℚ) ≤ (t - ((hours * 3600 + minutes * 60 + secs : ℕ) : ℚ)) * 1000 ∧
        (t - ((hours * 3600 + minutes * 60 + secs : ℕ) : ℚ)) * 1000 < (ms : ℚ) + 1 ∧
        (∀ c ∈ padLeft 2 hours, isDigitChar c = true) ∧
        (∀ c ∈ padLeft 2 minutes, isDigitChar c = true) ∧
        (∀ c ∈ padLeft 2 secs, isDigitChar c = true) ∧
        (∀ c ∈ padLeft 3 ms, isDigitChar c = true) ∧
        (padLeft 2 minutes).length = 2 ∧ (padLeft 2 secs).length = 2 ∧
        (padLeft 3 ms).length = 3 ∧ 2 ≤ (padLeft 2 hours).length ∧
        (t < 360000 → (padLeft 2 hours).length = 2)) ∧
    format_timestamp 0 = "00:00:00.000" ∧
    format_timestamp (131/2) = "00:01:05.500" ∧
    format_timestamp (3725123/1000) = "01:02:05.123" := by
  refine ⟨?_, ?_, ?_, ?_⟩
  · intro t ht
    have hfl0 : (0:ℤ) ≤ ⌊t⌋ := Int.floor_nonneg.mpr ht
    have hfloor : (((⌊t⌋).toNat : ℕ) : ℚ) = ((⌊t⌋ : ℤ) : ℚ) := ratCast_toNat _ hfl0
    refine ⟨(⌊t⌋).toNat / 3600, (⌊t⌋).toNat % 3600 / 60, (⌊t⌋).toNat % 3600 % 60,
      (⌊(t - (⌊t⌋ : ℤ)) * 1000⌋).toNat, rfl, ?_, ?_, ?_, ?_, ?_, ?_, ?_,
      padLeft_all_digits 2 _, padLeft_all_digits 2 _, padLeft_all_digits 2 _,
      padLeft_all_digits 3 _, ?_, ?_, ?_, ?_, ?_⟩
    · omega
    · omega
    · -- ms < 1000
      have hfrac1 : t - (⌊t⌋ : ℤ) < 1 := by
        have := Int.lt_floor_add_one t
        linarith
      have : (t - (⌊t⌋ : ℤ)) * 1000 < 1000 := by nlinarith
      have hlt : ⌊(t - (⌊t⌋ : ℤ)) * 1000⌋ < 1000 := by
        rw [Int.floor_lt]
        push_cast
        push_cast at this
        linarith
      omega
    · -- whole ≤ t
      have hsum : (⌊t⌋).toNat / 3600 * 3600 + (⌊t⌋).toNat % 3600 / 60 * 60 +
          (⌊t⌋).toNat % 3600 % 60 = (⌊t⌋).toNat := by omega
      push_cast [hsum]
      rw [hfloor]
      exact Int.floor_le t
    · -- t < whole + 1
      have hsum : (⌊t⌋).toNat / 3600 * 3600 + (⌊t⌋).toNat % 3600 / 60 * 60 +
          (⌊t⌋).toNat % 3600 % 60 = (⌊t⌋).toNat := by omega
      push_cast [hsum]
      rw [hfloor]
      exact Int.lt_floor_add_one t
    · -- ms ≤ remainder * 1000
      have hsum : (⌊t⌋).toNat / 3600 * 3600 + (⌊t⌋).toNat % 3600 / 60 * 60 +
          (⌊t⌋).toNat % 3600 % 60 = (⌊t⌋).toNat := by omega
      have hms0 : (0:ℤ) ≤ ⌊(t - (⌊t⌋ : ℤ)) * 1000⌋ := by
        apply Int.floor_nonneg.mpr
        have h0 : (0:ℚ) ≤ t - (⌊t⌋ : ℤ) := by
          have := Int.floor_le t
          linarith
        nlinarith
      push_cast [hsum]
      rw [hfloor, ratCast_toNat _ hms0]
      exact Int.floor_le _
    · -- remainder * 1000 < ms + 1
      have hsum : (⌊t⌋).toNat / 3600 * 3600 + (⌊t⌋).toNat % 3600 / 60 * 60 +
          (⌊t⌋).toNat % 3600 % 60 = (⌊t⌋).toNat := by omega
      have hms0 : (0:ℤ) ≤ ⌊(t - (⌊t⌋ : ℤ)) * 1000⌋ := by
        apply Int.floor_nonneg.mpr
        have h0 : (0:ℚ) ≤ t - (⌊t⌋ : ℤ) := by
          have := Int.floor_le t
          linarith
        nlinarith
      push_cast [hsum]
      rw [hfloor, ratCast_toNat _ hms0]
      exact Int.lt_floor_add_one _
    · exact padLeft_length_eq 2 2 _ (by norm_num) (le_refl 2) (by omega)
    · exact padLeft_length_eq 2 2 _ (by norm_num) (le_refl 2) (by omega)
    · -- ms < 1000 again for the length bound
      have hfrac1 : t - (⌊t⌋ : ℤ) < 1 := by
        have := Int.lt_floor_add_one t
        linarith
      have hq : (t - (⌊t⌋ : ℤ)) * 1000 < 1000 := by nlinarith
      have hlt : ⌊(t - (⌊t⌋ : ℤ)) * 1000⌋ < 1000 := by
        rw [Int.floor_lt]
        push_cast
        push_cast at hq
        linarith
      exact padLeft_length_eq 3 3 _ (by norm_num) (le_refl 3) (by omega)
    · rw [padLeft_length]; omega
    · intro hlt
      have hTq : ((⌊t⌋ : ℤ) : ℚ) ≤ t := Int.floor_le t
      have hT : ⌊t⌋ < 360000 := by
        by_contra hc
        push_neg at hc
        have : (360000 : ℚ) ≤ ((⌊t⌋ : ℤ) : ℚ) := by exact_mod_cast hc
        linarith
      exact padLeft_length_eq 2 2 _ (by norm_num) (le_refl 2) (by omega)
  · have h1 : ⌊(0:ℚ)⌋ = 0 := by norm_num
    have h2 : ((0:ℚ) - ((0:ℤ):ℚ)) * 1000 = 0 := by norm_num
    simp only [format_timestamp, h1, h2]
    decide
  · have h1 : ⌊(131:ℚ)/2⌋ = 65 := by norm_num
    have h2 : ((131:ℚ)/2 - ((65:ℤ):ℚ)) * 1000 = 500 := by push_cast; norm_num
    have h3 : ⌊(500:ℚ)⌋ = 500 := by norm_num
    simp only [format_timestamp, h1, h2, h3]
    decide
  · have h1 : ⌊(3725123:ℚ)/1000⌋ = 3725 := by norm_num
    have h2 : ((3725123:ℚ)/1000 - ((3725:ℤ):ℚ)) * 1000 = 123 := by push_cast; norm_num
    have h3 : ⌊(123:ℚ)⌋ = 123 := by norm_num
    simp only [format_timestamp, h1, h2, h3]
    decide

/-- Witness for C5 at `t = 3725.123`. -/
theorem format_timestamp_spec_witness :
    ∃ hours minutes secs ms : ℕ,
      format_timestamp (3725123/1000) =
        String.mk (padLeft 2 hours ++ ':' :: (padLeft 2 minutes ++ ':' ::
          (padLeft 2 secs ++ '.' :: padLeft 3 ms))) ∧
      minutes < 60 ∧ secs < 60 ∧ ms < 1000 ∧
      ((hours * 3600 + minutes * 60 + secs : ℕ) : ℚ) ≤ 3725123/1000 ∧
      (3725123/1000 : ℚ) < ((hours * 3600 + minutes * 60 + secs : ℕ) : ℚ) + 1 ∧
      (ms : ℚ) ≤ ((3725123/1000 : ℚ) - ((hours * 3600 + minutes * 60 + secs : ℕ) : ℚ)) * 1000 ∧
      ((3725123/1000 : ℚ) - ((hours * 3600 + minutes * 60 + secs : ℕ) : ℚ)) * 1000 < (ms : ℚ) + 1 ∧
      (∀ c ∈ padLeft 2 hours, isDigitChar c = true) ∧
      (∀ c ∈ padLeft 2 minutes, isDigitChar c = true) ∧
      (∀ c ∈ padLeft 2 secs, isDigitChar c = true) ∧
      (∀ c ∈ padLeft 3 ms, isDigitChar c = true) ∧
      (padLeft 2 minutes).length = 2 ∧ (padLeft 2 secs).length = 2 ∧
      (padLeft 3 ms).length = 3 ∧ 2 ≤ (padLeft 2 hours).length ∧
      ((3725123/1000 : ℚ) < 360000 → (padLeft 2 hours).length = 2) :=
  format_timestamp_spec.1 (3725123/1000) (by norm_num)

/-! ## C2, C3, C4 — pipeline degradation and the speaker-count invariant -/

theorem dedup_const {α : Type} [DecidableEq α] :
    ∀ (l : List α) (a : α), l ≠ [] → (∀ x ∈ l, x = a) → l.dedup = [a] := by
  intro l
  induction l with
  | nil => intro a h _; exact absurd rfl h
  | cons x xs ih =>
      intro a _ hall
      have hx : x = a := hall x (List.mem_cons_self x xs)
      subst hx
      cases xs with
      | nil => simp
      | cons y ys =>
          have hmem : x ∈ y :: ys := by
            have hy : y = x := (hall y (by simp)).trans rfl
            simp [hy]
          rw [List.dedup_cons_of_mem hmem]
          exact ih x (by simp) (fun z hz => hall z (List.mem_cons_of_mem x hz))

/-- C2.  Whenever diarization fails for any reason or is skipped (no
credential, model-load failure, inference failure — all reach the same
`except` handler, modelled by `diarization_outcome = none`),
`transcribe_audio` still returns a result (the model is a total function —
the failure is never fatal) in which every segment carries the label
`"SPEAKER_00"`, and whenever there is at least one segment —
in particular in the spec's 2-segment scenario — `speakers_detected = 1`. -/
theorem diarization_failure_uniform_default (run : PipelineRun)
    (h : run.diarization_outcome = none) :
    (∀ seg ∈ (transcribe_audio run).segments, seg.speaker = some "SPEAKER_00") ∧
    ((transcribe_audio run).segments ≠ [] →
      (transcribe_audio run).metadata.speakers_detected = 1) := by
  constructor
  · intro seg hseg
    simp only [transcribe_audio, h] at hseg
    rcases List.mem_map.mp hseg with ⟨s, _, rfl⟩
    rfl
  · intro hne
    simp only [transcribe_audio, h] at hne ⊢
    rw [List.map_map]
    set base := (match run.align_outcome with
      | some segs => segs
      | none => run.segments) with hbase
    have hconst : ∀ x ∈ base.map (speakerLabel ∘ fun seg => setSpeaker seg "SPEAKER_00"),
        x = "SPEAKER_00" := by
      intro x hx
      rcases List.mem_map.mp hx with ⟨s, _, rfl⟩
      rfl
    have hb : base ≠ [] := by
      intro hc
      exact hne (by rw [hc]; rfl)
    have hmapne : base.map (speakerLabel ∘ fun seg => setSpeaker seg "SPEAKER_00") ≠ [] := by
      simpa [List.map_eq_nil_iff] using hb
    rw [dedup_const _ "SPEAKER_00" hmapne hconst]
    rfl

/-- Witness for C2: the concrete two-segment run with diarization
disabled has both segments labeled `"SPEAKER_00"` and
`speakers_detected = 1`. -/
theorem diarization_failure_uniform_default_witness :
    (transcribe_audio sampleRun).metadata.speakers_detected = 1 :=
  (diarization_failure_uniform_default sampleRun rfl).2 (by decide)

/-- C3.  Whenever the alignment stage fails for any reason (exception
while loading the model or aligning, or no model available for the
language — all collapse to `align_outcome = none`), the pipeline
continues (the model is total — never fatal) and runs exactly as if
alignment had returned the transcription-stage segments unchanged; in
particular the returned segments are the transcription-stage segments in
the same order with the same times and text (the later diarization stage
touches only the `speaker` field). -/
theorem alignment_failure_segments_unchanged (run : PipelineRun)
    (h : run.align_outcome = none) :
    transcribe_audio run =
      transcribe_audio ⟨run.audio_file, run.model_size, run.language,
        run.detected_language, run.audio_len, run.segments,
        some run.segments, run.diarization_outcome⟩ ∧
    (transcribe_audio run).segments.map (fun seg => (seg.start, seg.stop, seg.text)) =
      run.segments.map (fun seg => (seg.start, seg.stop, seg.text)) := by
  constructor
  · simp only [transcribe_audio, h]
  · simp only [transcribe_audio, h]
    cases run.diarization_outcome with
    | none => simp [List.map_map, Function.comp, setSpeaker]
    | some turns => simp [List.map_map, Function.comp, setSpeaker]

/-- Witness for C3 at the concrete two-segment run whose alignment stage
failed: the result's segments carry exactly the transcription segments'
times and text. -/
theorem alignment_failure_segments_unchanged_witness :
    (transcribe_audio sampleRun).segments.map (fun seg => (seg.start, seg.stop, seg.text)) =
      sampleRun.segments.map (fun seg => (seg.start, seg.stop, seg.text)) :=
  (alignment_failure_segments_unchanged sampleRun rfl).2

/-- C4.  For every result `transcribe_audio` returns, the metadata field
`speakers_detected` equals the number of distinct speaker labels occurring
across the result's own segment list (each label read with the same
`get("speaker", "SPEAKER_00")` default the code uses, so the default
counts as one distinct label when present). -/
theorem speakers_detected_eq_distinct_count (run : PipelineRun) :
    (transcribe_audio run).metadata.speakers_detected =
      ((transcribe_audio run).segments.map speakerLabel).toFinset.card := by
  rw [List.card_toFinset]
  rfl

/-! ## C6 — SRT and VTT formatters -/

theorem srtLinesFrom_eq (segs : List Segment) :
    ∀ n, srtLinesFrom n segs = (List.enumFrom n segs).flatMap srtBlock := by
  induction segs with
  | nil => intro n; rfl
  | cons s ss ih =>
      intro n
      simp only [srtLinesFrom, List.enumFrom, List.flatMap_cons, srtBlock, ih (n + 1)]
      rfl

theorem srtLinesFrom_get (segs : List Segment) :
    ∀ n k, k < segs.length →
      (srtLinesFrom n segs)[4 * k]? = some (String.mk (natChars (n + k))) := by
  induction segs with
  | nil => intro n k h; simp at h
  | cons s ss ih =>
      intro n k h
      cases k with
      | zero => rfl
      | succ k =>
          rw [show 4 * (k + 1) = (((4 * k + 1) + 1) + 1) + 1 by ring]
          simp only [srtLinesFrom, List.getElem?_cons_succ]
          rw [ih (n + 1) k (by simpa using h)]
          rw [show n + 1 + k = n + (k + 1) by ring]

/-- C6.  `format_output(result, "srt")` emits, for each segment in input
order, four lines — the 1-based sequence number (`1..N` independent of
speaker and timing, witnessed by the `4k`-th line being the numeral
`k+1`), a `start --> end` line with comma-separated milliseconds
(`srtTimestamp` output never contains `'.'` and always contains `','`), a
`speaker: text` line, and a blank line — joined by `"\n"`; and
`format_output(result, "vtt")` begins with the line `"WEBVTT"` followed by
a blank line and uses the dot-separated `format_timestamp` in its
timestamp lines. -/
theorem format_output_srt_vtt_spec (r : TranscriptionResult) :
    format_output r "srt" =
      Except.ok (String.intercalate "\n" ((List.enumFrom 1 r.segments).flatMap srtBlock)) ∧
    (∀ k, k < r.segments.length →
      ((List.enumFrom 1 r.segments).flatMap srtBlock)[4 * k]? =
        some (String.mk (natChars (k + 1)))) ∧
    (∀ t : ℚ, ∀ c ∈ (srtTimestamp t).data, c ≠ '.') ∧
    (∀ t : ℚ, ',' ∈ (srtTimestamp t).data) ∧
    format_output r "vtt" =
      Except.ok (String.intercalate "\n"
        ("WEBVTT" :: "" :: r.segments.flatMap vttBlock)) := by
  refine ⟨?_, ?_, ?_, ?_, ?_⟩
  · show Except.ok (format_srt r.segments) = _
    rw [format_srt, srtLinesFrom_eq r.segments 1]
  · intro k hk
    rw [← srtLinesFrom_eq r.segments 1, srtLinesFrom_get r.segments 1 k hk,
      show 1 + k = k + 1 by ring]
  · intro t c hc
    simp only [srtTimestamp, List.mem_map] at hc
    rcases hc with ⟨c', _, rfl⟩
    by_cases h : c' = '.'
    · simp [h]
    · simp [h]
  · intro t
    have hdot : '.' ∈ (format_timestamp t).data := by
      simp [format_timestamp]
    have : (if ('.' : Char) = '.' then ',' else '.') = ',' := by simp
    simp only [srtTimestamp]
    rw [← this]
    exact List.mem_map_of_mem _ hdot
  · show Except.ok (format_vtt r.segments) = _
    rw [format_vtt]

/-- Witness for C6 at the concrete two-segment result. -/
theorem format_output_srt_vtt_spec_witness :
    format_output sampleResult "srt" =
      Except.ok (String.intercalate "\n"
        ((List.enumFrom 1 sampleResult.segments).flatMap srtBlock)) ∧
    ((List.enumFrom 1 sampleResult.segments).flatMap srtBlock)[4 * 1]? =
      some (String.mk (natChars 2)) ∧
    format_output sampleResult "vtt" =
      Except.ok (String.intercalate "\n"
        ("WEBVTT" :: "" :: sampleResult.segments.flatMap vttBlock)) :=
  ⟨(format_output_srt_vtt_spec sampleResult).1,
   (format_output_srt_vtt_spec sampleResult).2.1 1 (by decide),
   (format_output_srt_vtt_spec sampleResult).2.2.2.2⟩

/-! ## C8, C10 — format dispatch -/

/-- C8.  A format name the dispatch does not recognise (its lowered form
is outside the supported set — the lookup is on `format_type.lower()`)
fails with an error that names the requested value verbatim and lists the
supported set `json, txt, srt, vtt`; each name in the supported set is
accepted. -/
theorem format_output_unsupported_spec (r : TranscriptionResult) :
    (∀ s : String, pyLower s ∉ (["json", "txt", "srt", "vtt"] : List String) →
      format_output r s =
        Except.error ("Unsupported format: " ++ s ++ ". Supported: json, txt, srt, vtt")) ∧
    (∀ s ∈ (["json", "txt", "srt", "vtt"] : List String),
      ∃ out, format_output r s = Except.ok out) := by
  constructor
  · intro s hs
    simp only [List.mem_cons, List.not_mem_nil, or_false, not_or] at hs
    obtain ⟨h1, h2, h3, h4⟩ := hs
    simp only [format_output, h1, h2, h3, h4, if_false]
  · intro s hs
    fin_cases hs
    · exact ⟨format_json r, rfl⟩
    · exact ⟨format_txt r.segments, rfl⟩
    · exact ⟨format_srt r.segments, rfl⟩
    · exact ⟨format_vtt r.segments, rfl⟩

/-- Witness for C8: `"xml"` is rejected with the message naming it and the
supported set; `"srt"` is accepted. -/
theorem format_output_unsupported_spec_witness :
    format_output sampleResult "xml" =
      Except.error "Unsupported format: xml. Supported: json, txt, srt, vtt" ∧
    ∃ out, format_output sampleResult "srt" = Except.ok out :=
  ⟨(format_output_unsupported_spec sampleResult).1 "xml" (by decide),
   (format_output_unsupported_spec sampleResult).2 "srt" (by simp)⟩

theorem charOfNat_toNat (n : Nat) (h : n.isValidChar) : (Char.ofNat n).toNat = n := by
  simp only [Char.ofNat, h, dif_pos, Char.ofNatAux, Char.toNat]
  rfl

theorem pyLowerChar_idem (c : Char) : pyLowerChar (pyLowerChar c) = pyLowerChar c := by
  unfold pyLowerChar
  by_cases h : 65 ≤ c.toNat ∧ c.toNat ≤ 90
  · rw [if_pos h]
    have hvalid : (c.toNat + 32).isValidChar := by
      left
      omega
    rw [if_neg]
    rw [charOfNat_toNat _ hvalid]
    omega
  · rw [if_neg h, if_neg h]

theorem pyLower_idem (s : String) : pyLower (pyLower s) = pyLower s := by
  simp only [pyLower, List.map_map]
  congr 1
  induction s.data with
  | nil => rfl
  | cons c cs ih =>
      simp only [List.map_cons, Function.comp, pyLowerChar_idem, List.map_map] at ih ⊢
      rw [ih]

/-- C10.  Format-name matching is case-insensitive: the successful result
of `format_output r s` is identical to that of
`format_output r (lowercase s)` (when the name is unsupported both raise;
the raised message echoes the name as given), and the mixed-case names
`"JSON"`, `"Txt"`, `"SRT"`, `"VTT"` are all accepted. -/
theorem format_output_case_insensitive :
    (∀ (r : TranscriptionResult) (s : String),
      (format_output r s).toOption = (format_output r (pyLower s)).toOption) ∧
    (∀ r : TranscriptionResult,
      ∀ s ∈ (["JSON", "Txt", "SRT", "VTT"] : List String),
        ∃ out, format_output r s = Except.ok out) := by
  constructor
  · intro r s
    simp only [format_output, pyLower_idem]
    by_cases h1 : pyLower s = "json"
    · simp [h1]
    by_cases h2 : pyLower s = "txt"
    · simp [h1, h2]
    by_cases h3 : pyLower s = "srt"
    · simp [h1, h2, h3]
    by_cases h4 : pyLower s = "vtt"
    · simp [h1, h2, h3, h4]
    · simp [h1, h2, h3, h4, Except.toOption]
  · intro r s hs
    fin_cases hs
    · exact ⟨format_json r, rfl⟩
    · exact ⟨format_txt r.segments, rfl⟩
    · exact ⟨format_srt r.segments, rfl⟩
    · exact ⟨format_vtt r.segments, rfl⟩

/-- Witness for C10: `"JSON"` dispatches as `"json"` does, and `"SRT"` is
accepted. -/
theorem format_output_case_insensitive_witness :
    (format_output sampleResult "JSON").toOption =
      (format_output sampleResult (pyLower "JSON")).toOption ∧
    ∃ out, format_output sampleResult "SRT" = Except.ok out :=
  ⟨format_output_case_insensitive.1 sampleResult "JSON",
   format_output_case_insensitive.2 sampleResult "SRT" (by simp)⟩

/-! ## C9 — batch tally (code bug)

`process_single_file` catches every `Exception` itself (src/main.py:81),
so the call in `process_batch`'s `try` never raises, `successful` is
incremented for **every** file, and the `except Exception: failed += 1`
branch (src/main.py:123-124) is dead: the final tally reports every file
— including files whose processing failed and was printed with
`"❌ Error processing ..."` — as successful, and `failed` is always 0. -/

/-- C9.  The batch loop never aborts (every file is visited and the tally
always sums to the file count) — but the tally is inaccurate: for every
run it reports `(number of files, 0)`, and concretely, a batch containing
`"bad.mp3"` whose transcription raises still reports 2 successes and 0
failures even though `process_single_file` caught and printed an error
for that file. -/
theorem process_batch_tally_miscount :
    (∀ (transcribe : String → Except String Unit) (files : List String),
      process_batch transcribe files = (files.length, 0)) ∧
    process_single_file
      (fun f => if f = "bad.mp3" then Except.error "Transcription failed" else Except.ok ())
      "bad.mp3" = true ∧
    process_batch
      (fun f => if f = "bad.mp3" then Except.error "Transcription failed" else Except.ok ())
      ["bad.mp3", "good.mp3"] = (2, 0) := by
  refine ⟨?_, rfl, rfl⟩
  intro transcribe files
  have haux : ∀ (l : List String) (a b : Nat),
      l.foldl (fun counts audio_file =>
        let _ := process_single_file transcribe audio_file
        (counts.1 + 1, counts.2)) (a, b) = (a + l.length, b) := by
    intro l
    induction l with
    | nil => intro a b; simp
    | cons x xs ih => intro a b; simp [ih, Nat.add_assoc, Nat.add_comm 1 xs.length]
  simpa using haux files 0 0

/-! ## C7 — JSON round trip -/

theorem expectChars_append (p : List Char) :
    ∀ r : List Char, expectChars p (p ++ r) = some r := by
  induction p with
  | nil => intro r; rfl
  | cons c cs ih => intro r; simp [expectChars, ih r]

theorem charDigit_digitChar (d : Nat) (hd : d < 10) : charDigit (digitChar d) = d := by
  interval_cases d <;> decide

theorem takeDigitChars_append (l : List Char) :
    ∀ rest : List Char, (∀ c ∈ l, isDigitChar c = true) → headNotDigit rest →
      takeDigitChars (l ++ rest) = (l.map charDigit, rest) := by
  induction l with
  | nil =>
      intro rest _ hrest
      cases rest with
      | nil => rfl
      | cons c cs =>
          have hc : isDigitChar c = false := hrest
          simp [takeDigitChars, hc]
  | cons c cs ih =>
      intro rest hall hrest
      have hc : isDigitChar c = true := hall c (by simp)
      simp [takeDigitChars, hc, ih rest (fun x hx => hall x (by simp [hx])) hrest]

theorem natFromDigits_eq_ofDigits (L : List Nat) :
    natFromDigits L.reverse = Nat.ofDigits 10 L := by
  rw [natFromDigits, List.foldl_reverse]
  induction L with
  | nil => rfl
  | cons d ds ih => rw [List.foldr_cons, ih, Nat.ofDigits_cons]; ring

theorem map_id_of_mem {α : Type} (l : List α) (f : α → α) (h : ∀ x ∈ l, f x = x) :
    l.map f = l := by
  induction l with
  | nil => rfl
  | cons x xs ih =>
      rw [List.map_cons, h x (by simp), ih (fun y hy => h y (by simp [hy]))]

theorem natFromDigits_natChars (n : Nat) :
    natFromDigits ((natChars n).map charDigit) = n := by
  by_cases hn : n = 0
  · subst hn; rfl
  · rw [natChars_eq_digits n hn, List.map_map]
    have hmap : (Nat.digits 10 n).reverse.map (charDigit ∘ digitChar) =
        (Nat.digits 10 n).reverse := by
      apply map_id_of_mem
      intro d hd
      exact charDigit_digitChar d (Nat.digits_lt_base (by norm_num) (List.mem_reverse.mp hd))
    rw [hmap, natFromDigits_eq_ofDigits, Nat.ofDigits_digits]

theorem readNatChars_append (n : Nat) (rest : List Char) (hrest : headNotDigit rest) :
    readNatChars (natChars n ++ rest) = some (n, rest) := by
  rw [readNatChars, takeDigitChars_append (natChars n) rest (natChars_all_digits n) hrest]
  have hne : ((natChars n).map charDigit).isEmpty = false := by
    rcases List.exists_cons_of_ne_nil (natChars_ne_nil n) with ⟨c, cs, hc⟩
    simp [hc]
  simp only [hne, Bool.false_eq_true, if_false, natFromDigits_natChars]

theorem readDecChars_append (d : Dec) (rest : List Char) (hd : WFDec d)
    (hrest : headNotDigit rest) :
    readDecChars (decChars d ++ rest) = some (d, rest) := by
  obtain ⟨hfr, hdig⟩ := hd
  have hshape : decChars d ++ rest = natChars d.ip ++ ('.' :: (d.fr.map digitChar ++ rest)) := by
    simp [decChars]
  rw [readDecChars, hshape]
  rw [readNatChars_append d.ip _ (by rfl)]
  simp only [Option.bind_eq_bind, Option.some_bind]
  rw [show ('.' :: (d.fr.map digitChar ++ rest)) = ['.'] ++ (d.fr.map digitChar ++ rest) by rfl]
  rw [expectChars_append]
  simp only [Option.some_bind]
  rw [takeDigitChars_append (d.fr.map digitChar) rest ?_ hrest]
  · have hmap : (d.fr.map digitChar).map charDigit = d.fr := by
      rw [List.map_map]
      apply map_id_of_mem
      intro k hk
      exact charDigit_digitChar k (hdig k hk)
    have hne2 : d.fr.isEmpty = false := by
      rcases List.exists_cons_of_ne_nil hfr with ⟨k, ks, hks⟩
      simp [hks]
    simp only [hmap, hne2, Bool.false_eq_true, if_false]
  · intro c hc
    rcases List.mem_map.mp hc with ⟨k, hk, rfl⟩
    exact digitChar_is_digit k (hdig k hk)

theorem readStringChars_append (l : List Char) :
    ∀ r : List Char, (∀ c ∈ l, c ≠ '"') →
      readStringChars (l ++ '"' :: r) = some (l, r) := by
  induction l with
  | nil => intro r _; simp [readStringChars]
  | cons c cs ih =>
      intro r hall
      have hc : c ≠ '"' := hall c (by simp)
      have ih2 := ih r (fun x hx => hall x (by simp [hx]))
      simp only [List.cons_append, readStringChars, if_neg hc]
      rw [show cs.append ('"' :: r) = cs ++ '"' :: r from rfl, ih2]

theorem pyJsonEscapeChar_eq_self (c : Char) (h1 : c ≠ '"') (h2 : c ≠ '\\')
    (h3 : 32 ≤ c.toNat) : pyJsonEscapeChar c = [c] := by
  rw [pyJsonEscapeChar, if_neg h2, if_neg h1, if_neg (by omega)]

/-- With `ensure_ascii=False`, a character at or above `0x80` (all
non-ASCII) is emitted literally, never escaped. -/
theorem pyJsonEscapeChar_nonascii (c : Char) (h : 128 ≤ c.toNat) :
    pyJsonEscapeChar c = [c] := by
  have h1 : c ≠ '"' := by intro hc; subst hc; simp at h
  have h2 : c ≠ '\\' := by intro hc; subst hc; simp at h
  exact pyJsonEscapeChar_eq_self c h1 h2 (by omega)

theorem escape_eq_self (l : List Char)
    (h : ∀ c ∈ l, c ≠ '"' ∧ c ≠ '\\' ∧ 32 ≤ c.toNat) :
    (l.map pyJsonEscapeChar).flatten = l := by
  induction l with
  | nil => rfl
  | cons c cs ih =>
      obtain ⟨h1, h2, h3⟩ := h c (by simp)
      simp only [List.map_cons, List.flatten_cons,
        pyJsonEscapeChar_eq_self c h1 h2 h3,
        ih (fun x hx => h x (by simp [hx])), List.singleton_append]

theorem readJString_append (s : String) (rest : List Char) (hs : WFStr s) :
    readJString (strChars s ++ rest) = some (s, rest) := by
  have hshape : strChars s ++ rest = ['"'] ++ (s.data ++ '"' :: rest) := by
    simp [strChars, escape_eq_self s.data hs]
  rw [readJString, hshape, expectChars_append]
  simp only [Option.bind_eq_bind, Option.some_bind]
  rw [readStringChars_append s.data rest (fun c hc => (hs c hc).1)]
  rfl

theorem parseSeg_append (s : JSegment) (rest : List Char) (hs : WFSeg s) :
    parseSeg (segChars s ++ rest) = some (s, rest) := by
  obtain ⟨hst, hen, htx, hsp⟩ := hs
  have hshape : segChars s ++ rest =
      lit "    \x7b\n      \"start\": " ++ (decChars s.start ++
      (lit ",\n      \"end\": " ++ (decChars s.stop ++
      (lit ",\n      \"text\": " ++ (strChars s.text ++
      (lit ",\n      \"speaker\": " ++ (strChars s.speaker ++
      (lit "\n    \x7d" ++ rest)))))))) := by
    simp [segChars, List.append_assoc]
  rw [parseSeg, hshape, expectChars_append]
  simp only [Option.bind_eq_bind, Option.some_bind]
  rw [readDecChars_append s.start _ hst (by rfl)]
  simp only [Option.some_bind]
  rw [expectChars_append]
  simp only [Option.some_bind]
  rw [readDecChars_append s.stop _ hen (by rfl)]
  simp only [Option.some_bind]
  rw [expectChars_append]
  simp only [Option.some_bind]
  rw [readJString_append s.text _ htx]
  simp only [Option.some_bind]
  rw [expectChars_append]
  simp only [Option.some_bind]
  rw [readJString_append s.speaker _ hsp]
  simp only [Option.some_bind]
  rw [expectChars_append]
  simp only [Option.some_bind]

theorem segChars_length_pos (s : JSegment) : 1 ≤ (segChars s).length := by
  have h : 0 < (lit "    \x7b\n      \"start\": ").length := by decide
  simp only [segChars, List.length_append]
  omega

theorem segsChars_length : ∀ ss : List JSegment, ss.length ≤ (segsChars ss).length := by
  intro ss
  induction ss with
  | nil => simp [segsChars]
  | cons s tail ih =>
      cases tail with
      | nil => simpa [segsChars] using segChars_length_pos s
      | cons s2 tail2 =>
          have h1 := segChars_length_pos s
          simp only [segsChars, List.length_append, List.length_cons] at ih ⊢
          omega

theorem parseSegList_append :
    ∀ (ss : List JSegment) (fuel : Nat) (rest : List Char), ss ≠ [] →
      ss.length ≤ fuel → (∀ s ∈ ss, WFSeg s) →
      parseSegList fuel (segsChars ss ++ (lit "\n  ]" ++ rest)) = some (ss, rest) := by
  intro ss
  induction ss with
  | nil => intro fuel rest h _ _; exact absurd rfl h
  | cons s tail ih =>
      intro fuel rest _ hfuel hwf
      cases fuel with
      | zero => simp at hfuel
      | succ f =>
          cases tail with
          | nil =>
              rw [show segsChars [s] = segChars s from rfl, parseSegList,
                parseSeg_append s _ (hwf s (by simp))]
              simp only [Option.bind_eq_bind, Option.some_bind]
              rw [show expectChars (lit ",\n") (lit "\n  ]" ++ rest) = none from rfl]
              rw [expectChars_append]
              simp only [Option.some_bind]
          | cons s2 tail2 =>
              have hshape : segsChars (s :: s2 :: tail2) ++ (lit "\n  ]" ++ rest) =
                  segChars s ++ (lit ",\n" ++
                    (segsChars (s2 :: tail2) ++ (lit "\n  ]" ++ rest))) := by
                rw [show segsChars (s :: s2 :: tail2) =
                  segChars s ++ lit ",\n" ++ segsChars (s2 :: tail2) from rfl]
                simp [List.append_assoc]
              rw [parseSegList, hshape, parseSeg_append s _ (hwf s (by simp))]
              simp only [Option.bind_eq_bind, Option.some_bind]
              rw [expectChars_append]
              show (parseSegList f (segsChars (s2 :: tail2) ++ (lit "\n  ]" ++ rest))).bind
                  (fun a => some (s :: a.1, a.2)) = some (s :: s2 :: tail2, rest)
              rw [ih f rest (by simp) (by simpa using hfuel)
                (fun x hx => hwf x (by simp [hx]))]
              rfl

theorem expectChars_self (p : List Char) : expectChars p p = some [] := by
  simpa using expectChars_append p []

set_option maxHeartbeats 2000000 in
theorem parseTranscription_dumpsChars (r : JResult) (h : WFResult r) :
    parseTranscription (dumpsChars r) = some r := by
  obtain ⟨haf, hdur, hmdl, hlang, hsegs⟩ := h
  rw [parseTranscription, dumpsChars, expectChars_append]
  simp only [Option.bind_eq_bind, Option.some_bind]
  rw [readJString_append r.metadata.audio_file _ haf]
  simp only [Option.some_bind]
  rw [expectChars_append]
  simp only [Option.some_bind]
  rw [readDecChars_append r.metadata.duration _ hdur (by rfl)]
  simp only [Option.some_bind]
  rw [expectChars_append]
  simp only [Option.some_bind]
  rw [readJString_append r.metadata.model _ hmdl]
  simp only [Option.some_bind]
  rw [expectChars_append]
  simp only [Option.some_bind]
  rw [readJString_append r.metadata.language _ hlang]
  simp only [Option.some_bind]
  rw [expectChars_append]
  simp only [Option.some_bind]
  rw [readNatChars_append r.metadata.speakers_detected _ (by rfl)]
  simp only [Option.some_bind]
  rw [expectChars_append]
  simp only [Option.some_bind]
  cases hseg : r.segments with
  | nil =>
      rw [show segListChars [] = lit "[]" from rfl, expectChars_append]
      show (expectChars (lit "\n\x7d") (lit "\n\x7d")).bind
          (fun s3 => if s3.isEmpty = true
            then some ⟨⟨r.metadata.audio_file, r.metadata.duration, r.metadata.model,
              r.metadata.language, r.metadata.speakers_detected⟩, []⟩ else none) =
        some r
      rw [expectChars_self]
      show some (⟨⟨r.metadata.audio_file, r.metadata.duration, r.metadata.model,
        r.metadata.language, r.metadata.speakers_detected⟩, []⟩ : JResult) = some r
      rw [← hseg]
  | cons s0 tail =>
      rw [show segListChars (s0 :: tail) =
        lit "[\n" ++ (segsChars (s0 :: tail) ++ lit "\n  ]") from rfl]
      rw [List.append_assoc, List.append_assoc]
      rw [show expectChars (lit "[]")
          (lit "[\n" ++ (segsChars (s0 :: tail) ++ (lit "\n  ]" ++ lit "\n\x7d"))) =
          none from rfl]
      show (expectChars (lit "[\n")
          (lit "[\n" ++ (segsChars (s0 :: tail) ++ (lit "\n  ]" ++ lit "\n\x7d")))).bind
          (fun s2 => (parseSegList s2.length s2).bind
            (fun p => (expectChars (lit "\n\x7d") p.2).bind
              (fun s4 => if s4.isEmpty = true
                then some ⟨⟨r.metadata.audio_file, r.metadata.duration, r.metadata.model,
                  r.metadata.language, r.metadata.speakers_detected⟩, p.1⟩ else none))) =
        some r
      rw [expectChars_append]
      simp only [Option.some_bind]
      have hfuel : (s0 :: tail).length ≤
          (segsChars (s0 :: tail) ++ (lit "\n  ]" ++ lit "\n\x7d")).length := by
        have := segsChars_length (s0 :: tail)
        simp only [List.length_append]
        omega
      rw [parseSegList_append (s0 :: tail) _ (lit "\n\x7d") (by simp) hfuel
        (by rw [← hseg]; exact hsegs)]
      simp only [Option.some_bind]
      rw [expectChars_self]
      show some (⟨⟨r.metadata.audio_file, r.metadata.duration, r.metadata.model,
        r.metadata.language, r.metadata.speakers_detected⟩, s0 :: tail⟩ : JResult) = some r
      rw [← hseg]

/-- C7.  `format_output(result, "json")` round-trips: the characters
`_format_json` produces (`dumpsChars`, with floats rendered as the
decimals their `repr` prints — the `Dec`/`JResult` layer) parse back to
the original metadata and segment list exactly, for every well-formed
result (`WFResult`: strings contain no character the encoder escapes;
every number has at least one fraction digit, as float `repr`
guarantees); and non-ASCII characters pass through the encoder literally
(never escaped), as `ensure_ascii=False` prescribes. -/
theorem format_json_round_trip :
    (∀ r : TranscriptionResult, (format_json r).data = dumpsChars (jresultOf r)) ∧
    (∀ r : JResult, WFResult r → parseTranscription (dumpsChars r) = some r) ∧
    (∀ c : Char, 128 ≤ c.toNat → pyJsonEscapeChar c = [c]) :=
  ⟨fun _ => rfl, parseTranscription_dumpsChars, pyJsonEscapeChar_nonascii⟩

/-- Witness for C7: the concrete result (non-ASCII text included)
round-trips exactly, and `'é'` is emitted literally. -/
theorem format_json_round_trip_witness :
    parseTranscription (dumpsChars sampleJResult) = some sampleJResult ∧
    pyJsonEscapeChar 'é' = ['é'] :=
  ⟨format_json_round_trip.2.1 sampleJResult
      (by unfold WFResult WFSeg WFDec WFStr sampleJResult; decide),
   format_json_round_trip.2.2 'é' (by decide)⟩

end WhisperXSpec
